import Mathlib

/-!
Shallow embedding of the runtime pattern-matching core of ts-pattern
(src/internals/helpers.ts together with the Matcher protocol of
src/types/Pattern.ts), and proofs about `matchPattern` and
`getSelectionKeys`.

Modelling choices:
- JavaScript numbers are modelled only as far as same-value equality
  (`Object.is`) distinguishes them: `NaN` and `-0` are their own
  constructors, every other number is an integer; structural equality on
  the type is exactly `Object.is` on numbers.
- A JavaScript object may carry the well-known `symbols.matcher` property
  in addition to being an array or a plain record, so a composite pattern
  is an array shape or a record shape together with an optional matcher
  capability, mirroring the duck-typed `isMatcher` test.
- The `select` callback is modelled by returning the ordered list of
  `(key, value)` invocations next to the boolean result; a matcher's
  `match` may throw, modelled with `Except`.
- `k in value` is modelled by own keys: the entry keys of a record, and
  the canonical index strings plus "length" for an array (prototype-chain
  lookup is not modelled).
-/

namespace TsPattern

/-- JavaScript numbers, as far as same-value equality observes them:
`NaN`, negative zero, and other numbers collapsed to integers (`int 0`
is positive zero). Structural equality is `Object.is` on numbers. -/
inductive JSNum where
  | nan
  | negZero
  | int (n : Int)
  | posInf
  | negInf
  deriving DecidableEq

/-- Non-composite JavaScript values: everything `isObject` rejects.
Functions are identified by an opaque id, so equality between `func`
values is reference equality, as `Object.is` has it. -/
inductive Prim where
  | num (n : JSNum)
  | str (s : String)
  | boolean (b : Bool)
  | nullV
  | undefV
  | func (id : Nat)
  deriving DecidableEq

/-- Runtime JavaScript values fed to the engine as `value`. -/
inductive JSVal where
  | prim (p : Prim)
  | arr (elems : List JSVal)
  | obj (fields : List (String × JSVal))

/-- The `undefined` value. -/
def JSVal.undefined : JSVal := .prim .undefV

/-- isObject from helpers.ts: true for any non-null value of composite
kind; `typeof` of a function is "function", of `null` is "object" but
`null` is falsy, so neither passes. -/
def JSVal.isObject : JSVal → Bool
  | .prim _ => false
  | .arr _ => true
  | .obj _ => true

/-- Whether the string is the canonical decimal form of an index of the
list, i.e. an own index key of the array. -/
def isIndexKey (len : Nat) (k : String) : Bool :=
  (List.range len).any (fun i => toString i == k)

/-- The JavaScript `k in value` test, restricted to own keys: entry keys
for a record, index strings and "length" for an array, nothing for a
primitive. -/
def JSVal.hasKey : JSVal → String → Bool
  | .obj fields, k => fields.any (fun kv => kv.1 == k)
  | .arr elems, k => k == "length" || isIndexKey elems.length k
  | .prim _, _ => false

/-- The JavaScript property read `value[k]`: the first entry with that
key for a record, the element or the length for an array, `undefined`
when the key is absent. -/
def JSVal.getKey : JSVal → String → JSVal
  | .obj fields, k =>
    match fields.find? (fun kv => kv.1 == k) with
    | some kv => kv.2
    | none => JSVal.undefined
  | .arr elems, k =>
    if k == "length" then .prim (.num (.int elems.length))
    else
      match (List.range elems.length).find? (fun i => toString i == k) with
      | some i => elems.getD i JSVal.undefined
      | none => JSVal.undefined
  | .prim _, _ => JSVal.undefined

/-- MatcherType from src/types/Pattern.ts. -/
inductive MatcherType where
  | not
  | optional
  | or
  | and
  | array
  | map
  | set
  | select
  | default
  | custom
  deriving DecidableEq

/-- The ordered list of `select` invocations the engine performs. -/
abbrev Trace := List (String × JSVal)

/-- MatchResult from src/types/Pattern.ts: `{ matched, selections? }`. -/
structure MatchResult where
  matched : Bool
  selections : Option (List (String × JSVal))

/-- The object returned by `pattern[symbols.matcher]()`: the
MatcherProtocol of src/types/Pattern.ts. `matchFn` embeds `match`, which
may throw (modelled by `Except`); `matcherType` and the
`getSelectionKeys` method are optional. -/
structure MatcherObj where
  matchFn : JSVal → Except String MatchResult
  matcherType : Option MatcherType
  getSelKeys : Option (List String)

/-- Patterns: a non-object literal, or a composite of array shape or
record shape. A composite optionally carries the `symbols.matcher`
property, mirroring that in JavaScript any object — array or record in
shape — can expose the matcher capability. -/
inductive Pattern where
  | prim (p : Prim)
  | arrP (matcherProp : Option MatcherObj) (elems : List Pattern)
  | objP (matcherProp : Option MatcherObj) (fields : List (String × Pattern))

/-- The value of the `symbols.matcher` property, when present. -/
def Pattern.matcherProp? : Pattern → Option MatcherObj
  | .prim _ => none
  | .arrP m _ => m
  | .objP m _ => m

/-- isMatcher from helpers.ts: does the object expose a (truthy) value
under the well-known matcher key. -/
def isMatcher (p : Pattern) : Bool := p.matcherProp?.isSome

/-- isOptionalPattern from helpers.ts: a matcher whose protocol reports
matcherType "optional". -/
def isOptionalPattern (p : Pattern) : Bool :=
  match p.matcherProp? with
  | some m => m.matcherType == some .optional
  | none => false

/-- Object.is(value, pattern) for a non-object pattern: same-value
equality. On our value type this is structural equality against the
primitive; a composite value is never the same value as a primitive. -/
def sameValue (value : JSVal) (pattern : Prim) : Bool :=
  match value with
  | .prim q => q == pattern
  | _ => false

/-- The matcher branch of matchPattern: run `match(value)`; on success
with selections present, call `select(key, selections[key])` for each
key in order; return the matched flag. Exceptions from `match`
propagate. -/
def delegateMatcher (m : MatcherObj) (value : JSVal) :
    Except String (Bool × Trace) :=
  match m.matchFn value with
  | .error e => .error e
  | .ok r => .ok (r.matched, if r.matched then r.selections.getD [] else [])

mutual

/-- matchPattern from helpers.ts. The returned pair is the boolean
result together with the ordered list of `select` invocations made;
`.error` models an exception thrown by a matcher's `match`. Dispatch
order follows the source: isObject(pattern), then isMatcher(pattern),
then isObject(value), then Array.isArray(pattern)/Array.isArray(value),
else keyed record matching; a non-object pattern is compared with
Object.is. -/
def matchPattern : Pattern → JSVal → Except String (Bool × Trace)
  | .prim p, value => .ok (sameValue value p, [])
  | .arrP (some m) _, value => delegateMatcher m value
  | .objP (some m) _, value => delegateMatcher m value
  | .arrP none ps, value =>
    match value with
    | .arr vs =>
      if ps.length == vs.length then matchElems ps vs else .ok (false, [])
    | .obj _ => .ok (false, [])
    | .prim _ => .ok (false, [])
  | .objP none fields, value =>
    if value.isObject then matchFields fields value else .ok (false, [])

/-- The `pattern.every((subPattern, i) => matchPattern(subPattern,
value[i], select))` loop of the tuple branch: left-to-right, stopping at
the first failure, concatenating the select traces. -/
def matchElems : List Pattern → List JSVal → Except String (Bool × Trace)
  | [], _ => .ok (true, [])
  | p :: ps, vs =>
    match matchPattern p (vs.headD JSVal.undefined) with
    | .error e => .error e
    | .ok (b, t) =>
      if b then
        match matchElems ps vs.tail with
        | .error e => .error e
        | .ok (b2, t2) => .ok (b2, t ++ t2)
      else .ok (false, t)

/-- The `Object.keys(pattern).every(k => (k in value ||
isOptionalPattern(subPattern)) && matchPattern(subPattern, value[k],
select))` loop of the keyed branch: left-to-right over the pattern's
keys, stopping at the first failure. -/
def matchFields : List (String × Pattern) → JSVal →
    Except String (Bool × Trace)
  | [], _ => .ok (true, [])
  | (k, sub) :: rest, value =>
    if value.hasKey k || isOptionalPattern sub then
      match matchPattern sub (value.getKey k) with
      | .error e => .error e
      | .ok (b, t) =>
        if b then
          match matchFields rest value with
          | .error e => .error e
          | .ok (b2, t2) => .ok (b2, t ++ t2)
        else .ok (false, t)
    else .ok (false, [])

end

/-- flatMap from helpers.ts: `xs.reduce((acc, p) => acc.concat(f(p)),
[])`. -/
def flatMap {a b : Type} (xs : List a) (f : a → List b) : List b :=
  xs.foldl (fun acc p => acc ++ f p) []

mutual

/-- getSelectionKeys from helpers.ts: a matcher's own
`getSelectionKeys?.() ?? []`; for an array or record, the concatenation
over the children (`flatMap`, see `gskList_eq_flatMap`); `[]` for a
non-object pattern. -/
def getSelectionKeys : Pattern → List String
  | .prim _ => []
  | .arrP (some m) _ => m.getSelKeys.getD []
  | .objP (some m) _ => m.getSelKeys.getD []
  | .arrP none ps => gskList ps
  | .objP none fields => gskFields fields

/-- Left-to-right concatenation of `getSelectionKeys` over a list of
patterns. -/
def gskList : List Pattern → List String
  | [] => []
  | p :: ps => getSelectionKeys p ++ gskList ps

/-- Left-to-right concatenation of `getSelectionKeys` over the values of
a record pattern (`Object.values` order is entry order). -/
def gskFields : List (String × Pattern) → List String
  | [] => []
  | kv :: rest => getSelectionKeys kv.2 ++ gskFields rest

end

/-- The match succeeded: `matchPattern` returned `true` (with whatever
select trace). -/
def succeeds (p : Pattern) (v : JSVal) : Bool :=
  match matchPattern p v with
  | .ok (true, _) => true
  | _ => false

/-- `matchPattern` returned without throwing. -/
def returnsOk (r : Except String (Bool × Trace)) : Bool :=
  match r with
  | .ok _ => true
  | .error _ => false

mutual

/-- The pattern contains no Matcher object anywhere. -/
def matcherFree : Pattern → Bool
  | .prim _ => true
  | .arrP (some _) _ => false
  | .objP (some _) _ => false
  | .arrP none ps => mfList ps
  | .objP none fields => mfFields fields

def mfList : List Pattern → Bool
  | [] => true
  | p :: ps => matcherFree p && mfList ps

def mfFields : List (String × Pattern) → Bool
  | [] => true
  | kv :: rest => matcherFree kv.2 && mfFields rest

end

mutual

/-- The pattern is a well-formed JavaScript value shape: every record
level has distinct keys (a JavaScript object literal cannot carry a
duplicate string key at runtime). -/
def wfPattern : Pattern → Bool
  | .prim _ => true
  | .arrP _ ps => wfList ps
  | .objP _ fields =>
    decide ((fields.map Prod.fst).Nodup) && wfFields fields

def wfList : List Pattern → Bool
  | [] => true
  | p :: ps => wfPattern p && wfList ps

def wfFields : List (String × Pattern) → Bool
  | [] => true
  | kv :: rest => wfPattern kv.2 && wfFields rest

end

mutual

/-- A matcher-free pattern read back as the JavaScript value it is. -/
def Pattern.toVal : Pattern → JSVal
  | .prim p => .prim p
  | .arrP _ ps => .arr (toValList ps)
  | .objP _ fields => .obj (toValFields fields)

def toValList : List Pattern → List JSVal
  | [] => []
  | p :: ps => p.toVal :: toValList ps

def toValFields : List (String × Pattern) → List (String × JSVal)
  | [] => []
  | kv :: rest => (kv.1, kv.2.toVal) :: toValFields rest

end

/-! ### Basic characterization lemmas -/

theorem succeeds_eq_true (p : Pattern) (v : JSVal) :
    succeeds p v = true ↔ ∃ t, matchPattern p v = .ok (true, t) := by
  cases h : matchPattern p v with
  | error e => simp [succeeds, h]
  | ok bt =>
    obtain ⟨b, t⟩ := bt
    cases b <;> simp [succeeds, h]

theorem headD_eq_getD (vs : List JSVal) :
    vs.headD JSVal.undefined = vs.getD 0 JSVal.undefined := by
  cases vs <;> rfl

theorem tail_getD (vs : List JSVal) (i : Nat) :
    vs.tail.getD i JSVal.undefined = vs.getD (i + 1) JSVal.undefined := by
  cases vs <;> rfl

theorem matchElems_cons_iff (p : Pattern) (ps : List Pattern)
    (vs : List JSVal) :
    (∃ t, matchElems (p :: ps) vs = .ok (true, t)) ↔
    (succeeds p (vs.headD JSVal.undefined) = true ∧
      ∃ t, matchElems ps vs.tail = .ok (true, t)) := by
  simp only [matchElems, succeeds]
  generalize matchPattern p (vs.headD JSVal.undefined) = r1
  generalize matchElems ps vs.tail = r2
  cases r1 with
  | error e => simp
  | ok bt =>
    obtain ⟨b, t1⟩ := bt
    cases r2 with
    | error e => cases b <;> simp
    | ok bt2 =>
      obtain ⟨b2, t2⟩ := bt2
      cases b <;> cases b2 <;> simp

theorem matchElems_true_iff (ps : List Pattern) (vs : List JSVal) :
    (∃ t, matchElems ps vs = .ok (true, t)) ↔
    ∀ i, i < ps.length →
      succeeds (ps.getD i (.prim .undefV)) (vs.getD i JSVal.undefined) = true := by
  induction ps generalizing vs with
  | nil => simp [matchElems]
  | cons p ps ih =>
    rw [matchElems_cons_iff, ih vs.tail]
    constructor
    · rintro ⟨h0, hrest⟩ i hi
      cases i with
      | zero =>
        rw [List.getD_cons_zero, ← headD_eq_getD]
        exact h0
      | succ n =>
        have hn : n < ps.length := Nat.lt_of_succ_lt_succ hi
        rw [List.getD_cons_succ, ← tail_getD]
        exact hrest n hn
    · intro h
      refine ⟨?_, ?_⟩
      · have h0 := h 0 (Nat.succ_pos ps.length)
        rw [List.getD_cons_zero] at h0
        rw [headD_eq_getD]
        exact h0
      · intro n hn
        have hs := h (n + 1) (Nat.succ_lt_succ hn)
        rw [List.getD_cons_succ] at hs
        rw [tail_getD]
        exact hs

theorem matchFields_cons_iff (k : String) (sub : Pattern)
    (rest : List (String × Pattern)) (v : JSVal) :
    (∃ t, matchFields ((k, sub) :: rest) v = .ok (true, t)) ↔
    ((v.hasKey k || isOptionalPattern sub) = true ∧
      succeeds sub (v.getKey k) = true ∧
      ∃ t, matchFields rest v = .ok (true, t)) := by
  by_cases hg : (v.hasKey k || isOptionalPattern sub) = true
  · cases hm : matchPattern sub (v.getKey k) with
    | error e => simp [matchFields, hg, hm, succeeds]
    | ok bt =>
      obtain ⟨b, t1⟩ := bt
      cases hrest : matchFields rest v with
      | error e => cases b <;> simp [matchFields, hg, hm, hrest, succeeds]
      | ok bt2 =>
        obtain ⟨b2, t2⟩ := bt2
        cases b <;> cases b2 <;> simp [matchFields, hg, hm, hrest, succeeds]
  · have hg2 : (v.hasKey k || isOptionalPattern sub) = false := by
      simpa using hg
    simp [matchFields, hg2]

theorem matchFields_true_iff (fields : List (String × Pattern)) (v : JSVal) :
    (∃ t, matchFields fields v = .ok (true, t)) ↔
    ∀ kv ∈ fields, (v.hasKey kv.1 || isOptionalPattern kv.2) = true ∧
      succeeds kv.2 (v.getKey kv.1) = true := by
  induction fields with
  | nil => simp [matchFields]
  | cons kv rest ih =>
    obtain ⟨k, sub⟩ := kv
    rw [matchFields_cons_iff, ih]
    simp [List.forall_mem_cons, and_assoc]

theorem arrP_succeeds_iff (ps : List Pattern) (v : JSVal) :
    succeeds (.arrP none ps) v = true ↔
    ∃ vs, v = .arr vs ∧ ps.length = vs.length ∧
      ∀ i, i < ps.length →
        succeeds (ps.getD i (.prim .undefV)) (vs.getD i JSVal.undefined) = true := by
  cases v with
  | prim q => simp [succeeds, matchPattern]
  | obj fields => simp [succeeds, matchPattern]
  | arr vs =>
    rw [succeeds_eq_true]
    by_cases hl : ps.length = vs.length
    · have hb : (ps.length == vs.length) = true := by simpa using hl
      have hunf : matchPattern (.arrP none ps) (.arr vs) = matchElems ps vs := by
        simp [matchPattern, hb]
      rw [hunf, matchElems_true_iff]
      constructor
      · intro hall
        exact ⟨vs, rfl, hl, hall⟩
      · rintro ⟨vs2, heq, hl2, hall⟩
        injection heq with h
        subst h
        exact hall
    · have hb : (ps.length == vs.length) = false := by simpa using hl
      have hunf : matchPattern (.arrP none ps) (.arr vs) = .ok (false, []) := by
        simp [matchPattern, hb]
      rw [hunf]
      constructor
      · rintro ⟨t, ht⟩
        simp at ht
      · rintro ⟨vs2, heq, hl2, _⟩
        injection heq with h
        subst h
        exact absurd hl2 hl

/-- C3: an ordered-sequence (array) pattern succeeds if and only if the
value is an ordered sequence of exactly the same length whose element at
each index is matched by the positional sub-pattern at that index; in
particular the empty sequence pattern matches only a sequence of length
zero. -/
theorem C3_tuple_exact_length :
    (∀ (ps : List Pattern) (v : JSVal),
      succeeds (.arrP none ps) v = true ↔
        ∃ vs, v = .arr vs ∧ ps.length = vs.length ∧
          ∀ i, i < ps.length →
            succeeds (ps.getD i (.prim .undefV))
              (vs.getD i JSVal.undefined) = true) ∧
    (∀ v : JSVal, succeeds (.arrP none []) v = true ↔ v = .arr []) := by
  refine ⟨arrP_succeeds_iff, fun v => ?_⟩
  rw [arrP_succeeds_iff]
  constructor
  · rintro ⟨vs, rfl, hl, _⟩
    cases vs with
    | nil => rfl
    | cons x xs => simp at hl
  · rintro rfl
    exact ⟨[], rfl, rfl, fun i hi => absurd hi (Nat.not_lt_zero i)⟩

/-- Witness for C3 at a concrete two-element tuple pattern and value. -/
theorem C3_tuple_exact_length_witness :
    succeeds (.arrP none [.prim (.num (.int 1)), .prim .nullV])
      (.arr [.prim (.num (.int 1)), .prim .nullV]) = true := by
  apply (C3_tuple_exact_length.1 [.prim (.num (.int 1)), .prim .nullV]
    (.arr [.prim (.num (.int 1)), .prim .nullV])).mpr
  refine ⟨[.prim (.num (.int 1)), .prim .nullV], rfl, rfl, ?_⟩
  intro i hi
  cases i with
  | zero => simp [succeeds, matchPattern, sameValue]
  | succ n =>
    cases n with
    | zero => simp [succeeds, matchPattern, sameValue]
    | succ n2 => exact absurd hi (by simp)

/-- C4: a non-composite (bare literal) pattern succeeds exactly on
same-value-equal values: pattern NaN matches value NaN, while 0 against
-0 and -0 against 0 both fail. -/
theorem C4_literal_same_value :
    (∀ (q : Prim) (v : JSVal),
      matchPattern (.prim q) v = .ok (sameValue v q, [])) ∧
    (∀ (q : Prim) (v : JSVal), succeeds (.prim q) v = sameValue v q) ∧
    succeeds (.prim (.num .nan)) (.prim (.num .nan)) = true ∧
    succeeds (.prim (.num (.int 0))) (.prim (.num .negZero)) = false ∧
    succeeds (.prim (.num .negZero)) (.prim (.num (.int 0))) = false := by
  have h1 : ∀ (q : Prim) (v : JSVal),
      matchPattern (.prim q) v = .ok (sameValue v q, []) := by
    intro q v
    simp [matchPattern]
  have h2 : ∀ (q : Prim) (v : JSVal), succeeds (.prim q) v = sameValue v q := by
    intro q v
    cases h : sameValue v q <;> simp [succeeds, h1 q v, h]
  refine ⟨h1, h2, ?_, ?_, ?_⟩ <;> rw [h2] <;> simp [sameValue]

/-- C5: matcher recognition depends only on the well-known matcher
capability property: a composite carrying it is delegated to no matter
whether its shape is an array or a record and no matter its children,
while a composite without it is matched structurally (positionally for
an array, key-by-key for a record), never delegated. -/
theorem C5_matcher_key_dispatch :
    (∀ (m : MatcherObj) (ps : List Pattern) (fields : List (String × Pattern))
        (v : JSVal),
      matchPattern (.arrP (some m) ps) v = matchPattern (.objP (some m) fields) v) ∧
    (∀ (m : MatcherObj) (ps ps2 : List Pattern) (v : JSVal),
      matchPattern (.arrP (some m) ps) v = matchPattern (.arrP (some m) ps2) v) ∧
    (∀ (m : MatcherObj) (fs fs2 : List (String × Pattern)) (v : JSVal),
      matchPattern (.objP (some m) fs) v = matchPattern (.objP (some m) fs2) v) ∧
    (∀ (ps : List Pattern) (vs : List JSVal),
      matchPattern (.arrP none ps) (.arr vs) =
        if ps.length == vs.length then matchElems ps vs else .ok (false, [])) ∧
    (∀ (ps : List Pattern) (fields : List (String × JSVal)),
      matchPattern (.arrP none ps) (.obj fields) = .ok (false, [])) ∧
    (∀ (ps : List Pattern) (q : Prim),
      matchPattern (.arrP none ps) (.prim q) = .ok (false, [])) ∧
    (∀ (fields : List (String × Pattern)) (v : JSVal),
      matchPattern (.objP none fields) v =
        if v.isObject then matchFields fields v else .ok (false, [])) := by
  refine ⟨?_, ?_, ?_, ?_, ?_, ?_, ?_⟩ <;> intros <;> simp [matchPattern]

/-- C7: the engine does not roll back selection callbacks on failure:
there is a pattern and a value for which matchPattern returns false with
a nonempty list of select invocations already made. -/
theorem C7_partial_selections_on_failure :
    ∃ (p : Pattern) (v : JSVal) (t : Trace),
      matchPattern p v = .ok (false, t) ∧ t ≠ [] := by
  refine ⟨.arrP none
      [.objP (some ⟨fun w => .ok ⟨true, some [("n", w)]⟩,
          some .select, some ["n"]⟩) [],
        .prim (.num (.int 1))],
    .arr [.prim (.num (.int 0)), .prim (.num (.int 2))],
    [("n", .prim (.num (.int 0)))], ?_, by simp⟩
  simp [matchPattern, matchElems, delegateMatcher, sameValue]

theorem flatMap_foldl {α β : Type} (f : α → List β) (xs : List α)
    (acc : List β) :
    xs.foldl (fun acc2 p => acc2 ++ f p) acc = acc ++ flatMap xs f := by
  induction xs generalizing acc with
  | nil => simp [flatMap]
  | cons x xs ih =>
    simp only [List.foldl_cons, flatMap, List.nil_append]
    rw [ih, ih (f x), List.append_assoc]

theorem flatMap_cons {α β : Type} (f : α → List β) (x : α) (xs : List α) :
    flatMap (x :: xs) f = f x ++ flatMap xs f := by
  simp only [flatMap, List.foldl_cons, List.nil_append]
  rw [flatMap_foldl]
  rfl

theorem gskList_eq_flatMap (ps : List Pattern) :
    gskList ps = flatMap ps getSelectionKeys := by
  induction ps with
  | nil => simp [gskList, flatMap]
  | cons p ps ih => simp [gskList, flatMap_cons, ih]

theorem gskFields_eq_flatMap (fields : List (String × Pattern)) :
    gskFields fields = flatMap (fields.map Prod.snd) getSelectionKeys := by
  induction fields with
  | nil => simp [gskFields, flatMap]
  | cons kv rest ih => simp [gskFields, flatMap_cons, ih]

/-- C8: getSelectionKeys returns a matcher's own enumeration when it
provides one and the empty sequence when it omits it (independently of
its match function), the left-to-right flatMap over the children of an
array or record pattern, and the empty sequence on a bare literal — it
never consults a matcher's match. -/
theorem C8_selection_keys :
    (∀ (f : JSVal → Except String MatchResult) (mt : Option MatcherType)
        (ks : List String) (ps : List Pattern)
        (fields : List (String × Pattern)),
      getSelectionKeys (.arrP (some ⟨f, mt, some ks⟩) ps) = ks ∧
      getSelectionKeys (.objP (some ⟨f, mt, some ks⟩) fields) = ks ∧
      getSelectionKeys (.arrP (some ⟨f, mt, none⟩) ps) = [] ∧
      getSelectionKeys (.objP (some ⟨f, mt, none⟩) fields) = []) ∧
    (∀ ps : List Pattern,
      getSelectionKeys (.arrP none ps) = flatMap ps getSelectionKeys) ∧
    (∀ fields : List (String × Pattern),
      getSelectionKeys (.objP none fields) =
        flatMap (fields.map Prod.snd) getSelectionKeys) ∧
    (∀ q : Prim, getSelectionKeys (.prim q) = []) := by
  refine ⟨fun f mt ks ps fields => ⟨?_, ?_, ?_, ?_⟩, ?_, ?_, ?_⟩ <;>
    simp [getSelectionKeys, gskList_eq_flatMap, gskFields_eq_flatMap]

/-- C9: a bare function supplied as a pattern is treated as a literal:
it falls through to same-value comparison (the object-ness test rejects
functions), so the match succeeds exactly when the value is the very
same function object. -/
theorem C9_function_pattern_literal :
    ∀ (id : Nat) (v : JSVal),
      matchPattern (.prim (.func id)) v = .ok (sameValue v (.func id), []) ∧
      (sameValue v (.func id) = true ↔ v = .prim (.func id)) := by
  intro id v
  refine ⟨by simp [matchPattern], ?_⟩
  cases v with
  | prim q => simp [sameValue, beq_iff_eq]
  | arr es => simp [sameValue]
  | obj fs => simp [sameValue]

theorem objP_succeeds_iff (fields : List (String × Pattern)) (v : JSVal)
    (hv : v.isObject = true) :
    succeeds (.objP none fields) v = true ↔
    ∀ kv ∈ fields, (v.hasKey kv.1 || isOptionalPattern kv.2) = true ∧
      succeeds kv.2 (v.getKey kv.1) = true := by
  rw [succeeds_eq_true]
  have hunf : matchPattern (.objP none fields) v = matchFields fields v := by
    simp [matchPattern, hv]
  rw [hunf, matchFields_true_iff]

/-- C2: a keyed (non-sequence, non-Matcher) composite pattern matches a
composite value exactly when every key of the pattern either exists in
the value or carries an optional matcher, and its sub-pattern matches
the value's corresponding field (undefined when absent); keys of the
value outside the pattern are irrelevant, the empty record pattern
matches every composite value including arrays, and composite patterns
fail on non-composite values. -/
theorem C2_keyed_minimum_shape :
    (∀ (fields : List (String × Pattern)) (v : JSVal), v.isObject = true →
      (succeeds (.objP none fields) v = true ↔
        ∀ kv ∈ fields, (v.hasKey kv.1 || isOptionalPattern kv.2) = true ∧
          succeeds kv.2 (v.getKey kv.1) = true)) ∧
    (∀ v : JSVal, v.isObject = true →
      matchPattern (.objP none []) v = .ok (true, [])) ∧
    (∀ (fields : List (String × Pattern)) (q : Prim),
      matchPattern (.objP none fields) (.prim q) = .ok (false, [])) ∧
    (∀ (ps : List Pattern) (q : Prim),
      matchPattern (.arrP none ps) (.prim q) = .ok (false, [])) := by
  refine ⟨objP_succeeds_iff, ?_, ?_, ?_⟩
  · intro v hv
    simp [matchPattern, hv, matchFields]
  · intro fields q
    simp [matchPattern, JSVal.isObject]
  · intro ps q
    simp [matchPattern]

/-- Witness for C2 at concrete inputs: a one-key record pattern against
a record with an extra key, and the empty record pattern against an
array. -/
theorem C2_keyed_minimum_shape_witness :
    succeeds (.objP none [("a", .prim (.num (.int 1)))])
      (.obj [("a", .prim (.num (.int 1))), ("b", .prim .nullV)]) = true ∧
    matchPattern (.objP none []) (.arr [.prim .undefV]) = .ok (true, []) := by
  constructor
  · apply (C2_keyed_minimum_shape.1 [("a", .prim (.num (.int 1)))]
      (.obj [("a", .prim (.num (.int 1))), ("b", .prim .nullV)]) rfl).mpr
    intro kv hkv
    simp only [List.mem_singleton] at hkv
    subst hkv
    constructor
    · simp [JSVal.hasKey]
    · simp [succeeds, matchPattern, JSVal.getKey, sameValue]
  · exact C2_keyed_minimum_shape.2.1 _ rfl

/-- C1: a Matcher pattern is handled entirely by its match(value): the
engine returns the matched flag, invokes select once per key of the
returned selections exactly when matched is true and selections are
present, invokes select zero times when matched is false, propagates a
thrown exception, and never recurses into the matcher's own structure
(the carried children are arbitrary). -/
theorem C1_matcher_protocol :
    ∀ (m : MatcherObj) (ps : List Pattern) (fields : List (String × Pattern))
        (v : JSVal),
      (∀ (b : Bool) (sels : Option (List (String × JSVal))),
        m.matchFn v = .ok ⟨b, sels⟩ →
          matchPattern (.arrP (some m) ps) v =
            .ok (b, if b then sels.getD [] else []) ∧
          matchPattern (.objP (some m) fields) v =
            .ok (b, if b then sels.getD [] else [])) ∧
      (∀ e, m.matchFn v = .error e →
          matchPattern (.arrP (some m) ps) v = .error e ∧
          matchPattern (.objP (some m) fields) v = .error e) := by
  intro m ps fields v
  constructor
  · intro b sels h
    constructor <;> simp [matchPattern, delegateMatcher, h]
  · intro e h
    constructor <;> simp [matchPattern, delegateMatcher, h]

/-- Witness for C1: a selecting matcher that matches (one select call)
and one that reports no match (zero select calls despite selections). -/
theorem C1_matcher_protocol_witness :
    matchPattern
      (.arrP (some ⟨fun w => .ok ⟨true, some [("k", w)]⟩, none, none⟩) [])
      (.prim .nullV) = .ok (true, [("k", .prim .nullV)]) ∧
    matchPattern
      (.objP (some ⟨fun w => .ok ⟨false, some [("k", w)]⟩, none, none⟩) [])
      (.prim .nullV) = .ok (false, []) := by
  constructor
  · have h := (C1_matcher_protocol
        ⟨fun w => .ok ⟨true, some [("k", w)]⟩, none, none⟩ [] [] (.prim .nullV)).1
      true (some [("k", .prim .nullV)]) rfl
    simpa using h.1
  · have h := (C1_matcher_protocol
        ⟨fun w => .ok ⟨false, some [("k", w)]⟩, none, none⟩ [] [] (.prim .nullV)).1
      false (some [("k", .prim .nullV)]) rfl
    simpa using h.2

mutual

theorem matcherFree_ok (p : Pattern) (v : JSVal)
    (h : matcherFree p = true) : returnsOk (matchPattern p v) = true := by
  cases p with
  | prim q => simp [matchPattern, returnsOk]
  | arrP m ps =>
    cases m with
    | some m2 => simp [matcherFree] at h
    | none =>
      have hps : mfList ps = true := by simpa [matcherFree] using h
      cases v with
      | prim q => simp [matchPattern, returnsOk]
      | obj fs => simp [matchPattern, returnsOk]
      | arr vs =>
        by_cases hl : (ps.length == vs.length) = true
        · simpa [matchPattern, hl] using mfList_ok ps vs hps
        · have hl2 : (ps.length == vs.length) = false := by simpa using hl
          simp [matchPattern, hl2, returnsOk]
  | objP m fields =>
    cases m with
    | some m2 => simp [matcherFree] at h
    | none =>
      have hf : mfFields fields = true := by simpa [matcherFree] using h
      cases hv : v.isObject with
      | false => simp [matchPattern, hv, returnsOk]
      | true => simpa [matchPattern, hv] using mfFields_ok fields v hf

theorem mfList_ok (ps : List Pattern) (vs : List JSVal)
    (h : mfList ps = true) : returnsOk (matchElems ps vs) = true := by
  cases ps with
  | nil => simp [matchElems, returnsOk]
  | cons p ps2 =>
    have hsplit : matcherFree p = true ∧ mfList ps2 = true := by
      simpa [mfList] using h
    simp only [matchElems]
    have h1 := matcherFree_ok p (vs.headD JSVal.undefined) hsplit.1
    revert h1
    generalize matchPattern p (vs.headD JSVal.undefined) = r1
    intro h1
    cases r1 with
    | error e => simp [returnsOk] at h1
    | ok bt =>
      obtain ⟨b, t⟩ := bt
      cases b with
      | false => simp [returnsOk]
      | true =>
        have h2 := mfList_ok ps2 vs.tail hsplit.2
        revert h2
        generalize matchElems ps2 vs.tail = r2
        intro h2
        cases r2 with
        | error e => simp [returnsOk] at h2
        | ok bt2 =>
          obtain ⟨b2, t2⟩ := bt2
          simp [returnsOk]

theorem mfFields_ok (fields : List (String × Pattern)) (v : JSVal)
    (h : mfFields fields = true) : returnsOk (matchFields fields v) = true := by
  cases fields with
  | nil => simp [matchFields, returnsOk]
  | cons kv rest =>
    obtain ⟨k, sub⟩ := kv
    have hsplit : matcherFree sub = true ∧ mfFields rest = true := by
      simpa [mfFields] using h
    by_cases hg : (v.hasKey k || isOptionalPattern sub) = true
    · simp only [matchFields, hg, if_true]
      have h1 := matcherFree_ok sub (v.getKey k) hsplit.1
      revert h1
      generalize matchPattern sub (v.getKey k) = r1
      intro h1
      cases r1 with
      | error e => simp [returnsOk] at h1
      | ok bt =>
        obtain ⟨b, t⟩ := bt
        cases b with
        | false => simp [returnsOk]
        | true =>
          have h2 := mfFields_ok rest v hsplit.2
          revert h2
          generalize matchFields rest v = r2
          intro h2
          cases r2 with
          | error e => simp [returnsOk] at h2
          | ok bt2 =>
            obtain ⟨b2, t2⟩ := bt2
            simp [returnsOk]
    · have hg2 : (v.hasKey k || isOptionalPattern sub) = false := by simpa using hg
      simp [matchFields, hg2, returnsOk]

end

/-- C6: structural mismatch is reported as a boolean, never thrown: a
matcher-free pattern always returns without an exception, and the only
exceptions escaping matchPattern come from a matcher's own match, which
propagate unmodified. -/
theorem C6_no_exceptions_without_matchers :
    (∀ (p : Pattern) (v : JSVal), matcherFree p = true →
      returnsOk (matchPattern p v) = true) ∧
    (∀ (m : MatcherObj) (ps : List Pattern) (v : JSVal) (e : String),
      m.matchFn v = .error e → matchPattern (.arrP (some m) ps) v = .error e) ∧
    (∀ (m : MatcherObj) (fields : List (String × Pattern)) (v : JSVal)
        (e : String),
      m.matchFn v = .error e → matchPattern (.objP (some m) fields) v = .error e) := by
  refine ⟨matcherFree_ok, ?_, ?_⟩ <;>
    (intro m x v e h; simp [matchPattern, delegateMatcher, h])

/-- Witness for C6: a matcher-free tuple pattern on a mismatching value
returns without throwing; a throwing matcher's exception escapes as is. -/
theorem C6_no_exceptions_witness :
    returnsOk (matchPattern (.arrP none [.prim (.num (.int 1))])
      (.prim .undefV)) = true ∧
    matchPattern (.arrP (some ⟨fun _ => .error "boom", none, none⟩) [])
      (.prim .undefV) = .error "boom" := by
  constructor
  · exact C6_no_exceptions_without_matchers.1 _ _ (by simp [matcherFree, mfList])
  · exact C6_no_exceptions_without_matchers.2.1 _ _ _ _ rfl

theorem toValList_length (ps : List Pattern) :
    (toValList ps).length = ps.length := by
  induction ps with
  | nil => simp [toValList]
  | cons p ps ih => simp [toValList, ih]

theorem toValFields_eq_map (fields : List (String × Pattern)) :
    toValFields fields = fields.map (fun kv => (kv.1, kv.2.toVal)) := by
  induction fields with
  | nil => simp [toValFields]
  | cons kv rest ih => simp [toValFields, ih]

theorem toValFields_hasKey (fields : List (String × Pattern)) (k : String)
    (sub : Pattern) (hmem : (k, sub) ∈ fields) :
    (JSVal.obj (toValFields fields)).hasKey k = true := by
  simp only [JSVal.hasKey, toValFields_eq_map, List.any_eq_true]
  exact ⟨(k, sub.toVal), List.mem_map.mpr ⟨(k, sub), hmem, rfl⟩, by simp⟩

theorem toValFields_getKey (fields : List (String × Pattern))
    (hnd : (fields.map Prod.fst).Nodup) (k : String) (sub : Pattern)
    (hmem : (k, sub) ∈ fields) :
    (JSVal.obj (toValFields fields)).getKey k = sub.toVal := by
  induction fields with
  | nil => cases hmem
  | cons kv rest ih =>
    obtain ⟨k1, sub1⟩ := kv
    have hnd1 : k1 ∉ rest.map Prod.fst ∧ (rest.map Prod.fst).Nodup := by
      simpa using hnd
    by_cases hk : k1 = k
    · subst hk
      rcases List.mem_cons.mp hmem with h | h
      · injection h with h1 h2
        subst h2
        simp [JSVal.getKey, toValFields, List.find?]
      · exact absurd (List.mem_map.mpr ⟨(k1, sub), h, rfl⟩) hnd1.1
    · rcases List.mem_cons.mp hmem with h | h
      · injection h with h1 h2
        exact absurd h1.symm hk
      · have hrec := ih hnd1.2 h
        have hne : (k1 == k) = false := by simpa using hk
        simp only [toValFields] at hrec ⊢
        simp only [JSVal.getKey, List.find?] at hrec ⊢
        rw [hne]
        exact hrec

mutual

theorem reflAux (p : Pattern) (h1 : matcherFree p = true)
    (h2 : wfPattern p = true) : matchPattern p p.toVal = .ok (true, []) := by
  cases p with
  | prim q => simp [Pattern.toVal, matchPattern, sameValue]
  | arrP m ps =>
    cases m with
    | some m2 => simp [matcherFree] at h1
    | none =>
      have hps : mfList ps = true := by simpa [matcherFree] using h1
      have wps : wfList ps = true := by simpa [wfPattern] using h2
      have hlen : (ps.length == (toValList ps).length) = true := by
        simp [toValList_length]
      have hm := reflAuxList ps hps wps
      simp [Pattern.toVal, matchPattern, hlen, hm]
  | objP m fields =>
    cases m with
    | some m2 => simp [matcherFree] at h1
    | none =>
      have hf : mfFields fields = true := by simpa [matcherFree] using h1
      have hw : (fields.map Prod.fst).Nodup ∧ wfFields fields = true := by
        simpa [wfPattern] using h2
      have hm := reflAuxFields fields (JSVal.obj (toValFields fields)) hf hw.2
        (fun kv hkv =>
          ⟨toValFields_hasKey fields kv.1 kv.2 hkv,
            toValFields_getKey fields hw.1 kv.1 kv.2 hkv⟩)
      simp [Pattern.toVal, matchPattern, JSVal.isObject, hm]

theorem reflAuxList (ps : List Pattern) (h1 : mfList ps = true)
    (h2 : wfList ps = true) : matchElems ps (toValList ps) = .ok (true, []) := by
  cases ps with
  | nil => simp [toValList, matchElems]
  | cons p ps2 =>
    have hm : matcherFree p = true ∧ mfList ps2 = true := by
      simpa [mfList] using h1
    have hwf : wfPattern p = true ∧ wfList ps2 = true := by
      simpa [wfList] using h2
    have e1 := reflAux p hm.1 hwf.1
    have e2 := reflAuxList ps2 hm.2 hwf.2
    simp [toValList, matchElems, e1, e2]

theorem reflAuxFields (fields : List (String × Pattern)) (v : JSVal)
    (h1 : mfFields fields = true) (h2 : wfFields fields = true)
    (hkv : ∀ kv ∈ fields, v.hasKey kv.1 = true ∧ v.getKey kv.1 = kv.2.toVal) :
    matchFields fields v = .ok (true, []) := by
  cases fields with
  | nil => simp [matchFields]
  | cons kv rest =>
    obtain ⟨k, sub⟩ := kv
    have hm : matcherFree sub = true ∧ mfFields rest = true := by
      simpa [mfFields] using h1
    have hwf : wfPattern sub = true ∧ wfFields rest = true := by
      simpa [wfFields] using h2
    have hk := hkv (k, sub) (List.mem_cons_self _ _)
    have e1 : matchPattern sub (v.getKey k) = .ok (true, []) := by
      rw [hk.2]
      exact reflAux sub hm.1 hwf.1
    have e2 := reflAuxFields rest v hm.2 hwf.2
      (fun kv2 hkv2 => hkv kv2 (List.mem_cons_of_mem _ hkv2))
    simp [matchFields, hk.1, e1, e2]

end

/-- C10: matching is reflexive on matcher-free patterns: a finite
pattern built only from literals, arrays, and plain records (with the
distinct keys a JavaScript object literal guarantees), used as the
value, matches itself, making no select calls. -/
theorem C10_match_reflexive :
    ∀ p : Pattern, matcherFree p = true → wfPattern p = true →
      matchPattern p p.toVal = .ok (true, []) :=
  reflAux

/-- Witness for C10 at a concrete nested pattern. -/
theorem C10_match_reflexive_witness :
    matchPattern (.objP none [("a", .arrP none [.prim (.num (.int 1))])])
      (Pattern.toVal (.objP none [("a", .arrP none [.prim (.num (.int 1))])])) =
      .ok (true, []) :=
  C10_match_reflexive _
    (by simp [matcherFree, mfFields, mfList])
    (by simp [wfPattern, wfFields, wfList])

end TsPattern
